import Mathlib

/-!
Verification of the safety-dashboard state core
(`src/app/components/SafetyDashboard.tsx`).

This file shallowly embeds the pure state layer of the dashboard:
the calendar data model (`MonthlyData`, `DailyStatistic`, `DayStatus`),
calendar construction and validation (`createYearData`,
`isValidMonthlyData`), the automatic end-of-day promotion
(`applyAutoSafe`), the streak computation (`safetyStreak`), the day
mutation operations (`setDayStatus`, `cycleDayStatus`), the guarded
expression evaluator (`safeEval`) and the load-time reconciliation of
persisted JSON (`loadState`).

JavaScript `Date` values are embedded through their local-time getters
(`Instant`), and in-year date arithmetic is modelled by a day ordinal
(`dayOrd`): `new Date(y, m, d)` denotes the day numbered
`daysBefore y m + d` counted from 0 = Dec 31 of year `y - 1`, which is
exactly the normalisation JavaScript applies to out-of-range day
numbers, and timestamp comparison of two such dates in the same year
agrees with comparison of their ordinals.  JavaScript numbers that the
core uses as integers (years, month indices, day numbers, hours,
minutes) are embedded as `Int`.
-/

set_option autoImplicit false

namespace Dashboard

/-- Day status; the source's `DayStatus` union where the TypeScript
`null` ("not set yet") is embedded as the constructor `unset`. -/
inductive DayStatus where
  | unset
  | safe
  | near_miss
  | accident
deriving DecidableEq

/-- One day of a month: `interface DailyStatistic { day: number; status: DayStatus }`. -/
structure DailyStatistic where
  day : Int
  status : DayStatus
deriving DecidableEq

/-- One month: `interface MonthlyData { month: number; year: number; days: DailyStatistic[] }`. -/
structure MonthlyData where
  month : Int
  year : Int
  days : List DailyStatistic
deriving DecidableEq

/-- `interface Announcement { id: string; text: string }`. -/
structure Announcement where
  id : String
  text : String
deriving DecidableEq

/-- `interface SafetyMetric { id: string; label: string; value: string; unit?: string }`. -/
structure SafetyMetric where
  id : String
  label : String
  value : String
  unit : Option String
deriving DecidableEq

/-! ## List indexing helpers

JavaScript array subscription `a[i]` yields `undefined` for a negative
or too-large index; `getIdx` embeds it into `Option`.  `mapIdx` is an
index-aware map used to express "deep copy, then mutate one slot"
updates functionally. -/

/-- JavaScript array indexing `a[i]` with an integer index. -/
def getIdx {α : Type} (l : List α) (i : Int) : Option α :=
  if i < 0 then none else l.get? i.toNat

/-- Worker for `mapIdx`: maps `f` over the list, feeding it the index
of each element starting at `i`. -/
def mapIdxGo {α β : Type} (f : Nat → α → β) : Nat → List α → List β
  | _, [] => []
  | i, a :: l => f i a :: mapIdxGo f (i + 1) l

/-- Map a function over a list together with each element's index. -/
def mapIdx {α β : Type} (f : Nat → α → β) (l : List α) : List β :=
  mapIdxGo f 0 l

theorem mapIdxGo_length {α β : Type} (f : Nat → α → β) :
    ∀ (i : Nat) (l : List α), (mapIdxGo f i l).length = l.length
  | _, [] => rfl
  | i, _ :: l => by simp [mapIdxGo, mapIdxGo_length f (i + 1) l]

theorem mapIdx_length {α β : Type} (f : Nat → α → β) (l : List α) :
    (mapIdx f l).length = l.length :=
  mapIdxGo_length f 0 l

theorem mapIdxGo_get? {α β : Type} (f : Nat → α → β) :
    ∀ (l : List α) (i n : Nat),
      (mapIdxGo f i l).get? n = (l.get? n).map (f (i + n))
  | [], i, n => by simp [mapIdxGo]
  | a :: l, i, 0 => by simp [mapIdxGo]
  | a :: l, i, n + 1 => by
    have h := mapIdxGo_get? f l (i + 1) n
    have harith : i + 1 + n = i + (n + 1) := by omega
    simp only [mapIdxGo, List.get?_cons_succ, h, harith]

theorem mapIdx_get? {α β : Type} (f : Nat → α → β) (l : List α) (n : Nat) :
    (mapIdx f l).get? n = (l.get? n).map (f n) := by
  have h := mapIdxGo_get? f l 0 n
  simpa using h

theorem list_eq_of_get?_eq {α : Type} :
    ∀ {l₁ l₂ : List α}, (∀ n, l₁.get? n = l₂.get? n) → l₁ = l₂
  | [], [], _ => rfl
  | [], _ :: _, h => by simpa using h 0
  | _ :: _, [], h => by simpa using h 0
  | a :: l₁, b :: l₂, h => by
    have h0 := h 0
    simp only [List.get?_cons_zero, Option.some.injEq] at h0
    have ht : l₁ = l₂ := list_eq_of_get?_eq fun n => by simpa using h (n + 1)
    rw [h0, ht]

/-! ## Date model

`new Date(year, m + 1, 0).getDate()` — used by `createYearData` and
`isValidMonthlyData` — is the number of days of month `m` (0-based) of
`year` in the proleptic Gregorian calendar, which is what JavaScript's
`Date` implements. -/

/-- Gregorian leap-year rule, as implemented by JavaScript `Date`.
`%` on `Int` (`emod`) agrees with JavaScript's truncating `%` on the
`=== 0` tests, since both are zero exactly when the divisor divides. -/
def isLeapYear (y : Int) : Bool :=
  y % 4 == 0 && (y % 100 != 0 || y % 400 == 0)

/-- Days in 0-based month `m` of year `y`; the value of
`new Date(y, m + 1, 0).getDate()` for `m` in `0..11`. -/
def daysInMonth (y m : Int) : Int :=
  if m = 1 then (if isLeapYear y then 29 else 28)
  else if m = 3 ∨ m = 5 ∨ m = 8 ∨ m = 10 then 30
  else 31

theorem daysInMonth_pos (y m : Int) : 0 < daysInMonth y m := by
  unfold daysInMonth
  split
  · split <;> omega
  · split <;> omega

/-- Number of days of year `y` that precede 0-based month `m`. -/
def daysBefore (y : Int) : Nat → Int
  | 0 => 0
  | m + 1 => daysBefore y m + daysInMonth y (m : Int)

theorem daysBefore_nonneg (y : Int) : ∀ m : Nat, 0 ≤ daysBefore y m
  | 0 => le_refl 0
  | m + 1 => by
    have h1 := daysBefore_nonneg y m
    have h2 := daysInMonth_pos y (m : Int)
    simp only [daysBefore]
    omega

theorem daysBefore_mono (y : Int) {a b : Nat} (h : a ≤ b) :
    daysBefore y a ≤ daysBefore y b := by
  induction b with
  | zero => simp [Nat.le_zero.mp h]
  | succ b ih =>
    rcases Nat.lt_or_ge a (b + 1) with hlt | hge
    · have := ih (by omega)
      have := daysInMonth_pos y (b : Int)
      simp only [daysBefore]
      omega
    · have : a = b + 1 := by omega
      simp [this]

/-- Ordinal of the day denoted by `new Date(y, m, d)` (for a month
index `m` in `0..11` and an arbitrary integer day number `d`, which
JavaScript normalises), counted so that Jan 1 of year `y` is day 1. -/
def dayOrd (y m d : Int) : Int :=
  daysBefore y m.toNat + d

/-- Number of days of year `y`. -/
def yearLen (y : Int) : Int :=
  daysBefore y 12

/-- Worker for `ordToMD`: finds the month containing ordinal `ord`,
scanning from month `m` with `fuel` further months to try. -/
def ordToMDGo (y ord : Int) (m : Nat) : Nat → Int × Int
  | 0 => ((m : Int), ord - daysBefore y m)
  | fuel + 1 =>
    if ord ≤ daysBefore y (m + 1) then ((m : Int), ord - daysBefore y m)
    else ordToMDGo y ord (m + 1) fuel

/-- The `(getMonth(), getDate())` pair of the date of year `y` with
ordinal `ord` (for `1 ≤ ord ≤ yearLen y`). -/
def ordToMD (y ord : Int) : Int × Int :=
  ordToMDGo y ord 0 11

theorem ordToMDGo_eq (y : Int) (m : Nat) (d : Int)
    (h1 : 1 ≤ d) (h2 : d ≤ daysInMonth y (m : Int)) :
    ∀ (fuel m0 : Nat), m0 ≤ m → m ≤ m0 + fuel →
      ordToMDGo y (daysBefore y m + d) m0 fuel = ((m : Int), d)
  | 0, m0, hlo, hhi => by
    have hm : m = m0 := by omega
    subst hm
    simp [ordToMDGo]
  | fuel + 1, m0, hlo, hhi => by
    simp only [ordToMDGo]
    split
    · rename_i hle
      have hm : m = m0 := by
        by_contra hne
        have hlt : m0 + 1 ≤ m := by omega
        have := daysBefore_mono y hlt
        omega
      subst hm
      simp
    · rename_i hgt
      have hne : m ≠ m0 := by
        intro hm
        subst hm
        have : daysBefore y m + d ≤ daysBefore y (m + 1) := by
          simp only [daysBefore]
          omega
        exact hgt this
      exact ordToMDGo_eq y m d h1 h2 fuel (m0 + 1) (by omega) (by omega)

/-- The ordinal model is coherent: converting a valid month/day pair to
its ordinal and back recovers the pair. -/
theorem ordToMD_dayOrd (y m d : Int) (h0 : 0 ≤ m) (h12 : m < 12)
    (h1 : 1 ≤ d) (h2 : d ≤ daysInMonth y m) :
    ordToMD y (dayOrd y m d) = (m, d) := by
  have hm : ((m.toNat : Nat) : Int) = m := Int.toNat_of_nonneg h0
  have h2' : d ≤ daysInMonth y (m.toNat : Int) := by rw [hm]; exact h2
  have := ordToMDGo_eq y m.toNat d h1 h2' 11 0 (by omega) (by omega)
  unfold ordToMD dayOrd
  rw [this, hm]

/-- A JavaScript `Date` seen through the local-time getters the
dashboard uses: `getFullYear`, `getMonth`, `getDate`, `getHours`,
`getMinutes`. -/
structure Instant where
  year : Int
  month : Int
  day : Int
  hour : Int
  minute : Int
deriving DecidableEq

/-- The getter values any real `Date` produces: a 0-based month in
`0..11`, a day number valid for that month, hours in `0..23` and
minutes in `0..59`. -/
def Instant.Valid (now : Instant) : Prop :=
  0 ≤ now.month ∧ now.month < 12 ∧
  1 ≤ now.day ∧ now.day ≤ daysInMonth now.year now.month ∧
  0 ≤ now.hour ∧ now.hour < 24 ∧
  0 ≤ now.minute ∧ now.minute < 60

instance instantValidDecidable (now : Instant) : Decidable now.Valid :=
  inferInstanceAs (Decidable (_ ∧ _))

theorem dayOrd_bounds (now : Instant) (hv : now.Valid) :
    1 ≤ dayOrd now.year now.month now.day ∧
    dayOrd now.year now.month now.day ≤ yearLen now.year := by
  obtain ⟨hm0, hm12, hd1, hd2, -, -, -, -⟩ := hv
  have hnn := daysBefore_nonneg now.year now.month.toNat
  have hcast : ((now.month.toNat : Nat) : Int) = now.month := Int.toNat_of_nonneg hm0
  have hsucc : daysBefore now.year (now.month.toNat + 1) =
      daysBefore now.year now.month.toNat + daysInMonth now.year now.month := by
    simp only [daysBefore, hcast]
  have hmono : daysBefore now.year (now.month.toNat + 1) ≤ daysBefore now.year 12 :=
    daysBefore_mono now.year (by omega)
  unfold dayOrd yearLen
  omega

/-! ## Calendar model -/

/-- The source's `createYearData`: 12 months, each with
`new Date(year, m + 1, 0).getDate()` days numbered from 1, every day's
status `null` (`unset`). -/
def createYearData (year : Int) : List MonthlyData :=
  (List.range 12).map fun (m : Nat) =>
    MonthlyData.mk (m : Int) year
      ((List.range (daysInMonth year (m : Int)).toNat).map fun (i : Nat) =>
        DailyStatistic.mk ((i : Int) + 1) DayStatus.unset)

/-- The per-month test of `isValidMonthlyData`:
`m.month === idx && m.year === year && m.days.length === new Date(year, idx+1, 0).getDate()`
(the `Array.isArray(m.days)` and truthiness tests are absorbed by the
typed embedding). -/
def validMonthAt (year : Int) (idx : Nat) (mo : MonthlyData) : Bool :=
  decide (mo.month = (idx : Int)) && decide (mo.year = year) &&
    decide ((mo.days.length : Int) = daysInMonth year (idx : Int))

/-- Worker for `isValidMonthlyData`: `data.every(...)` with the running
index. -/
def validMonths (year : Int) : Nat → List MonthlyData → Bool
  | _, [] => true
  | idx, mo :: rest => validMonthAt year idx mo && validMonths year (idx + 1) rest

/-- The source's `isValidMonthlyData` structural check on persisted
calendar data. -/
def isValidMonthlyData (data : List MonthlyData) (year : Int) : Bool :=
  decide (data.length = 12) && validMonths year 0 data

/-- The source's `nextDayStatus` cycle
`null → safe → near_miss → accident → null`. -/
def nextDayStatus : DayStatus → DayStatus
  | DayStatus.unset => DayStatus.safe
  | DayStatus.safe => DayStatus.near_miss
  | DayStatus.near_miss => DayStatus.accident
  | DayStatus.accident => DayStatus.unset

/-- The optional-chained day lookup
`cal[m]?.days?.[d - 1]` used throughout the component. -/
def entryAt (cal : List MonthlyData) (m d : Int) : Option DailyStatistic :=
  match getIdx cal m with
  | none => none
  | some mo => getIdx mo.days (d - 1)

/-- The optional-chained status lookup
`cal[m]?.days?.[d - 1]?.status ?? null`. -/
def statusAt (cal : List MonthlyData) (m d : Int) : DayStatus :=
  match entryAt cal m d with
  | some dd => dd.status
  | none => DayStatus.unset

/-- Replace the status of the day at list position `day - 1` of the
month at list position `mi`, leaving everything else as it was. -/
def updMonth (day : Int) (st : DayStatus) (mo : MonthlyData) : MonthlyData :=
  MonthlyData.mk mo.month mo.year
    (mapIdx (fun j dd => if (j : Int) = day - 1 then DailyStatistic.mk dd.day st else dd)
      mo.days)

/-- The calendar produced by `setDayStatus` in the in-range case: the
source deep-copies every month and day and then overwrites the single
target day's status, which is observably this index-aware map. -/
def updateCal (prev : List MonthlyData) (mi day : Int) (st : DayStatus) :
    List MonthlyData :=
  mapIdx (fun i mo => if (i : Int) = mi then updMonth day st mo else mo) prev

/-- The source's `setDayStatus` (with the component state
`displayMonth` made an explicit argument): deep-copy, look up
`next[displayMonth]` and `month.days[day - 1]`, return the original
calendar (a no-op) if either lookup fails, otherwise overwrite that
day's status. -/
def setDayStatus (prev : List MonthlyData) (displayMonth day : Int)
    (status : DayStatus) : List MonthlyData :=
  match getIdx prev displayMonth with
  | none => prev
  | some mo =>
    match getIdx mo.days (day - 1) with
    | none => prev
    | some _ => updateCal prev displayMonth day status

/-- The source's `cycleDayStatus`: read the current status via
`displayMonthData?.days?.[day - 1]?.status ?? null` and set the day to
its successor in the cycle. -/
def cycleDayStatus (prev : List MonthlyData) (displayMonth day : Int) :
    List MonthlyData :=
  setDayStatus prev displayMonth day
    (nextDayStatus (statusAt prev displayMonth day))

/-! ## Auto-safe promotion -/

/-- The cutoff hour `AUTO_SAFE_HOUR = 16`. -/
def AUTO_SAFE_HOUR : Int := 16

/-- The source's cutoff test
`now.getHours() > AUTO_SAFE_HOUR || (now.getHours() === AUTO_SAFE_HOUR && now.getMinutes() >= 0)`
(the minute comparison is redundant for real minute values). -/
def afterCutoff (now : Instant) : Prop :=
  AUTO_SAFE_HOUR < now.hour ∨ (now.hour = AUTO_SAFE_HOUR ∧ 0 ≤ now.minute)

instance afterCutoffDecidable (now : Instant) : Decidable (afterCutoff now) :=
  inferInstanceAs (Decidable (_ ∨ _))

/-- The condition under which the `applyAutoSafe` loop body assigns
`safe` to day `dd` of 0-based month `m`: the day is still `unset` and
either `new Date(year, m, dd.day) < todayStart` (by the ordinal model),
or it is literally today's slot after the cutoff. -/
def promotes (year : Int) (now : Instant) (m : Nat) (dd : DailyStatistic) : Prop :=
  dd.status = DayStatus.unset ∧
    (dayOrd year (m : Int) dd.day < dayOrd year now.month now.day ∨
      (afterCutoff now ∧ (m : Int) = now.month ∧ dd.day = now.day))

instance promotesDecidable (year : Int) (now : Instant) (m : Nat)
    (dd : DailyStatistic) : Decidable (promotes year now m dd) :=
  inferInstanceAs (Decidable (_ ∧ _))

/-- The `applyAutoSafe` loop body for one day, written as the source's
test cascade (skip decided days, promote days before today, promote
today after the cutoff). -/
def promoteDay (year : Int) (now : Instant) (m : Nat) (dd : DailyStatistic) :
    DailyStatistic :=
  if dd.status ≠ DayStatus.unset then dd
  else if dayOrd year (m : Int) dd.day < dayOrd year now.month now.day then
    DailyStatistic.mk dd.day DayStatus.safe
  else if afterCutoff now ∧ (m : Int) = now.month ∧ dd.day = now.day then
    DailyStatistic.mk dd.day DayStatus.safe
  else dd

/-- Whether the month held in `omo` (the result of `prev[m]`, skipped
when missing) contains a day the loop would promote. -/
def monthHasPromotable (year : Int) (now : Instant) (m : Nat)
    (omo : Option MonthlyData) : Bool :=
  match omo with
  | none => false
  | some mo => mo.days.any fun dd => decide (promotes year now m dd)

/-- The source's `changed` flag: true exactly when some iteration of
the `applyAutoSafe` double loop (months `0..11`, days present in the
calendar) performs an assignment. -/
def autoSafeChanged (prev : List MonthlyData) (now : Instant) (year : Int) : Bool :=
  decide (now.year = year) &&
    (List.range 12).any fun m => monthHasPromotable year now m (prev.get? m)

/-- The source's `applyAutoSafe`: no-op when `now`'s year differs from
`year`; otherwise, when some day changes, return the deep copy with
every day of months `0..11` run through the loop body (days written at
most once, all reads from `prev`), and return `prev` itself (the same
reference) when nothing changed. -/
def applyAutoSafe (prev : List MonthlyData) (now : Instant) (year : Int) :
    List MonthlyData :=
  if now.year ≠ year then prev
  else if autoSafeChanged prev now year then
    mapIdx
      (fun m mo =>
        if m < 12 then MonthlyData.mk mo.month mo.year (mo.days.map (promoteDay year now m))
        else mo)
      prev
  else prev

/-! ## Streak -/

/-- The streak test `st === 'safe' || st === 'near_miss'`. -/
def isStreakStatus : DayStatus → Bool
  | DayStatus.safe => true
  | DayStatus.near_miss => true
  | _ => false

/-- Status of the day of year `y` with ordinal `ord`, looked up the way
the streak loop does: via the walking date's `getMonth()`/`getDate()`
and the optional-chained calendar access. -/
def statusAtOrd (cal : List MonthlyData) (y ord : Int) : DayStatus :=
  statusAt cal (ordToMD y ord).1 (ordToMD y ord).2

/-- The backward walk of `safetyStreak` from ordinal `n`: count the day
if its status is `safe` or `near_miss` and continue one day earlier,
stop (without counting) otherwise; ordinal 0 is Dec 31 of the previous
year, where the walk stops. -/
def streakFrom (cal : List MonthlyData) (y : Int) : Nat → Nat
  | 0 => 0
  | n + 1 =>
    if isStreakStatus (statusAtOrd cal y ((n : Int) + 1)) then
      streakFrom cal y n + 1
    else 0

/-- The source's `safetyStreak` memo (with the `new Date()` it reads
made an explicit argument `now`): 0 when `now`'s year differs from
`year`; otherwise walk backward from today — or from yesterday when
today's status is not yet a streak status — and count consecutive
streak days, stopping at the year boundary.  The guard
`end.getFullYear() !== y` is the ordinal-range test. -/
def safetyStreak (cal : List MonthlyData) (now : Instant) (year : Int) : Nat :=
  if now.year ≠ year then 0
  else
    let endOrd : Int :=
      if isStreakStatus (statusAt cal now.month now.day) then
        dayOrd year now.month now.day
      else
        dayOrd year now.month now.day - 1
    if endOrd < 1 ∨ yearLen year < endOrd then 0
    else streakFrom cal year endOrd.toNat

/-- The anchor ordinal the specification describes: today when today's
status is `safe` or `near_miss`, otherwise yesterday.  This is the
`end` date of the source expressed as an ordinal. -/
def streakAnchor (cal : List MonthlyData) (now : Instant) (year : Int) : Int :=
  if isStreakStatus (statusAt cal now.month now.day) then
    dayOrd year now.month now.day
  else
    dayOrd year now.month now.day - 1

/-! ## Expression evaluator

`safeEval` trims the input, rejects the empty string, tests the
character whitelist `^[0-9a-zA-Z_+\-*/().\s]*$`, and only then hands
the text to `new Function('vars', ...)` — a full JavaScript engine —
and keeps the result only when it is a finite number.  The engine call
itself has the semantics of arbitrary JavaScript and is therefore
embedded as an explicit parameter `jsEval`: an oracle mapping the
(trimmed) expression text and the variable record to an outcome.  The
guard logic around the engine is translated faithfully; everything the
function itself determines about the result is a theorem quantified
over the oracle. -/

/-- Outcome of evaluating the generated function: it can throw, return
a value that is not a number, return a non-finite number (`NaN`,
`±Infinity`), or return a finite number.  The numeric payload type is a
parameter. -/
inductive JsOutcome (α : Type) where
  | thrown : JsOutcome α
  | nonNumber : JsOutcome α
  | nonFiniteNumber : JsOutcome α
  | finiteNumber : α → JsOutcome α

/-- The character class `[0-9a-zA-Z_+\-*/().\s]` of the whitelist
(with `\s` modelled by its ASCII members; the claims involve no other
whitespace). -/
def allowedChar (c : Char) : Bool :=
  c.isDigit || ('a' ≤ c && c ≤ 'z') || ('A' ≤ c && c ≤ 'Z') ||
  c == '_' || c == '+' || c == '-' || c == '*' || c == '/' ||
  c == '(' || c == ')' || c == '.' ||
  c == ' ' || c == '\t' || c == '\n' || c == '\r' || c == '\x0b' || c == '\x0c'

/-- `String.prototype.trim`: drop whitespace from both ends. -/
def jsTrim (l : List Char) : List Char :=
  ((l.dropWhile Char.isWhitespace).reverse.dropWhile Char.isWhitespace).reverse

/-- The source's `safeEval` with the `new Function` engine abstracted
as the oracle `jsEval`: trim, reject empty, reject any character
outside the whitelist, then run the engine and keep only finite
numbers; a throwing engine yields `null` via the `catch`. -/
def safeEval {α : Type} (jsEval : List Char → List (String × α) → JsOutcome α)
    (expr : String) (vars : List (String × α)) : Option α :=
  let s := jsTrim expr.toList
  if s.isEmpty then none
  else if s.all allowedChar then
    match jsEval s vars with
    | JsOutcome.finiteNumber x => some x
    | _ => none
  else none

/-! ## Persistence reconciliation

The load effect parses the stored JSON and validates/defaults each
field independently.  A parsed document is embedded with one `Option`
per entity the claims concern: `none` stands for a field that is
absent or not an array of the expected records, `some l` for a stored
array `l`.  The source then feeds the selected calendar through
`applyAutoSafe` (the §4.2 backfill) before storing it in component
state; that step is modelled separately by `applyAutoSafe` above. -/

/-- The fields of the parsed persisted document that the claims
concern. -/
structure ParsedDoc where
  monthlyData : Option (List MonthlyData)
  announcements : Option (List Announcement)
  metrics : Option (List SafetyMetric)

/-- The source's `DEFAULT_ANNOUNCEMENTS`. -/
def DEFAULT_ANNOUNCEMENTS : List Announcement :=
  [Announcement.mk "1" "PPE Audit ประจำสัปดาห์ทุกวันพฤหัสบดี เวลา 09:00 น.",
   Announcement.mk "2" "Emergency Drill ไตรมาสนี้กำหนดวันที่ 28 มีนาคม 2026"]

/-- The source's `DEFAULT_METRICS`. -/
def DEFAULT_METRICS : List SafetyMetric :=
  [SafetyMetric.mk "m1" "First Aid" "0" (some "case"),
   SafetyMetric.mk "m2" "Non-Absent" "0" (some "case"),
   SafetyMetric.mk "m3" "Absent" "0" (some "case"),
   SafetyMetric.mk "m4" "Fire" "0" (some "case"),
   SafetyMetric.mk "m5" "IFR" "0" (some ""),
   SafetyMetric.mk "m6" "ISR" "1.2" (some "")]

/-- The calendar selection of the load effect:
`isValidMonthlyData(parsed.monthlyData, currentYear) ? parsed.monthlyData : createYearData(currentYear)`. -/
def loadMonthlyData (doc : ParsedDoc) (year : Int) : List MonthlyData :=
  match doc.monthlyData with
  | some cal => if isValidMonthlyData cal year then cal else createYearData year
  | none => createYearData year

/-- The announcement selection of the load effect:
`Array.isArray(parsed.announcements) && parsed.announcements.length ? parsed.announcements : DEFAULT_ANNOUNCEMENTS`
(`x.length` is truthy exactly when the array is non-empty). -/
def loadAnnouncements (doc : ParsedDoc) : List Announcement :=
  match doc.announcements with
  | some l => if l.isEmpty then DEFAULT_ANNOUNCEMENTS else l
  | none => DEFAULT_ANNOUNCEMENTS

/-- The metric selection of the load effect:
`Array.isArray(parsed.metrics) && parsed.metrics.length ? parsed.metrics : DEFAULT_METRICS`. -/
def loadMetrics (doc : ParsedDoc) : List SafetyMetric :=
  match doc.metrics with
  | some l => if l.isEmpty then DEFAULT_METRICS else l
  | none => DEFAULT_METRICS

/-- The reconciled in-memory entities produced by the load effect. -/
structure LoadedState where
  monthlyData : List MonthlyData
  announcements : List Announcement
  metrics : List SafetyMetric

/-- The load effect's validation-and-defaulting stage, one selection
per entity. -/
def loadState (doc : ParsedDoc) (year : Int) : LoadedState :=
  LoadedState.mk (loadMonthlyData doc year) (loadAnnouncements doc) (loadMetrics doc)

/-- Shape of a month record that mutation operations must preserve:
its `month` and `year` fields and its number of days. -/
def monthShape (mo : MonthlyData) : Int × Int × Nat :=
  (mo.month, mo.year, mo.days.length)

/-! ## Lemmas about the evaluator guard -/

theorem allowedChar_of_isWhitespace {c : Char} (h : c.isWhitespace = true) :
    allowedChar c = true := by
  simp only [Char.isWhitespace, Bool.or_eq_true, decide_eq_true_eq, or_assoc] at h
  rcases h with h | h | h | h <;> subst h <;> rfl

theorem mem_dropWhile_of_mem {α : Type} {p : α → Bool} {c : α} :
    ∀ {l : List α}, c ∈ l → p c = false → c ∈ l.dropWhile p
  | [], h, _ => absurd h (List.not_mem_nil c)
  | a :: l, h, hp => by
    by_cases ha : p a = true
    · rw [List.dropWhile_cons_of_pos ha]
      rcases List.mem_cons.mp h with rfl | hmem
      · rw [hp] at ha; cases ha
      · exact mem_dropWhile_of_mem hmem hp
    · rw [List.dropWhile_cons_of_neg ha]
      exact h

theorem mem_jsTrim_of_mem {c : Char} {l : List Char} (h : c ∈ l)
    (hws : c.isWhitespace = false) : c ∈ jsTrim l := by
  unfold jsTrim
  rw [List.mem_reverse]
  refine mem_dropWhile_of_mem ?_ hws
  rw [List.mem_reverse]
  exact mem_dropWhile_of_mem h hws

/-- C1: the guard of `safeEval` does not insulate the result from the
JavaScript engine for whitelist-clean expressions.  The expression
`"Math.random()"` — which names global state outside the variable
record — passes the whitelist, the engine's outcome is returned
verbatim, and two engines that answer differently make `safeEval`
differ, so the function's result is not determined by the expression
and the variable mapping alone. -/
theorem safeEval_engine_passthrough :
    (jsTrim ("Math.random()".toList)).all allowedChar = true ∧
    (∀ x : Int,
      safeEval (fun _ _ => JsOutcome.finiteNumber x) "Math.random()" [] = some x) ∧
    (∃ g₁ g₂ : List Char → List (String × Int) → JsOutcome Int,
      safeEval g₁ "Math.random()" [] ≠ safeEval g₂ "Math.random()" []) := by
  refine ⟨by decide, fun x => rfl, ?_⟩
  exact ⟨fun _ _ => JsOutcome.finiteNumber 0, fun _ _ => JsOutcome.finiteNumber 1,
    by decide⟩

/-- C2 (counterexample): the whitelist does not reject
`"import(1)"` — every character of it is whitelisted — and `safeEval`
therefore attempts evaluation, returning whatever finite number the
engine reports. -/
theorem safeEval_import_whitelisted :
    (jsTrim ("import(1)".toList)).all allowedChar = true ∧
    safeEval (fun _ _ => JsOutcome.finiteNumber (1 : Int)) "import(1)" [] = some 1 := by
  exact ⟨by decide, rfl⟩

/-- C2 (amended): an expression containing any character outside the
whitelist makes `safeEval` return `null` for every engine — so without
attempting evaluation — while `"import(1)"` contains only whitelisted
characters and is not rejected by the whitelist. -/
theorem safeEval_whitelist_reject :
    (∀ (α : Type) (expr : String)
        (jsEval : List Char → List (String × α) → JsOutcome α)
        (vars : List (String × α)),
      (∃ c ∈ expr.toList, allowedChar c = false) →
        safeEval jsEval expr vars = none) ∧
    (jsTrim ("import(1)".toList)).all allowedChar = true := by
  refine ⟨?_, by decide⟩
  intro α expr jsEval vars h
  obtain ⟨c, hc, hbad⟩ := h
  have hws : c.isWhitespace = false := by
    cases h' : c.isWhitespace
    · rfl
    · rw [allowedChar_of_isWhitespace h'] at hbad; cases hbad
  have hmem : c ∈ jsTrim expr.toList := mem_jsTrim_of_mem hc hws
  have hne : (jsTrim expr.toList).isEmpty = false := by
    cases h' : (jsTrim expr.toList).isEmpty
    · rfl
    · rw [List.isEmpty_iff] at h'
      rw [h'] at hmem
      cases hmem
  have hall : (jsTrim expr.toList).all allowedChar = false := by
    cases h' : (jsTrim expr.toList).all allowedChar
    · rfl
    · rw [List.all_eq_true] at h'
      rw [h' c hmem] at hbad
      cases hbad
  simp only [safeEval, hne, hall, Bool.false_eq_true, if_false]

/-- C2 (witness): `"1;2"` contains the non-whitelisted `';'` and is
rejected without consulting the engine. -/
theorem safeEval_whitelist_reject_witness :
    safeEval (fun _ _ => JsOutcome.finiteNumber (7 : Int)) "1;2" [] = none :=
  safeEval_whitelist_reject.1 Int "1;2" (fun _ _ => JsOutcome.finiteNumber 7) []
    ⟨';', by decide, by decide⟩

/-! ## Persistence claims -/

/-- C9: on load, each persisted entity is validated and defaulted from
its own field alone.  A document whose calendar validates but whose
announcements field is not an array yields the stored calendar
unchanged together with the default announcement list, and each
selection depends only on its own field of the document. -/
theorem loadState_independent (year : Int) :
    (∀ (doc : ParsedDoc) (cal : List MonthlyData),
      doc.monthlyData = some cal → isValidMonthlyData cal year = true →
      doc.announcements = none →
      (loadState doc year).monthlyData = cal ∧
      (loadState doc year).announcements = DEFAULT_ANNOUNCEMENTS) ∧
    (∀ d₁ d₂ : ParsedDoc, d₁.monthlyData = d₂.monthlyData →
      (loadState d₁ year).monthlyData = (loadState d₂ year).monthlyData) ∧
    (∀ d₁ d₂ : ParsedDoc, d₁.announcements = d₂.announcements →
      (loadState d₁ year).announcements = (loadState d₂ year).announcements) ∧
    (∀ d₁ d₂ : ParsedDoc, d₁.metrics = d₂.metrics →
      (loadState d₁ year).metrics = (loadState d₂ year).metrics) := by
  refine ⟨?_, ?_, ?_, ?_⟩
  · intro doc cal hcal hvalid hann
    constructor
    · simp [loadState, loadMonthlyData, hcal, hvalid]
    · simp [loadState, loadAnnouncements, hann]
  · intro d₁ d₂ h
    simp [loadState, loadMonthlyData, h]
  · intro d₁ d₂ h
    simp [loadState, loadAnnouncements, h]
  · intro d₁ d₂ h
    simp [loadState, loadMetrics, h]

/-- C9 (witness): a concrete document with a valid calendar and a
corrupt announcements field keeps the calendar and takes the default
announcements. -/
theorem loadState_independent_witness :
    (loadState (ParsedDoc.mk (some (createYearData 2026)) none (some DEFAULT_METRICS))
        2026).monthlyData = createYearData 2026 ∧
    (loadState (ParsedDoc.mk (some (createYearData 2026)) none (some DEFAULT_METRICS))
        2026).announcements = DEFAULT_ANNOUNCEMENTS :=
  (loadState_independent 2026).1
    (ParsedDoc.mk (some (createYearData 2026)) none (some DEFAULT_METRICS))
    (createYearData 2026) rfl (by decide) rfl

/-- C10: a stored announcements or metrics field that is an empty
array is replaced by the built-in default, because the load path
requires a non-empty array; consequently the loaded announcement and
metric lists are never empty. -/
theorem load_nonempty_defaults :
    (∀ (doc : ParsedDoc) (year : Int), doc.announcements = some [] →
      (loadState doc year).announcements = DEFAULT_ANNOUNCEMENTS) ∧
    (∀ (doc : ParsedDoc) (year : Int), doc.metrics = some [] →
      (loadState doc year).metrics = DEFAULT_METRICS) ∧
    (∀ (doc : ParsedDoc) (year : Int),
      (loadState doc year).announcements ≠ [] ∧ (loadState doc year).metrics ≠ []) := by
  refine ⟨?_, ?_, ?_⟩
  · intro doc year h
    simp [loadState, loadAnnouncements, h]
  · intro doc year h
    simp [loadState, loadMetrics, h]
  · intro doc year
    constructor
    · simp only [loadState, loadAnnouncements]
      match doc.announcements with
      | none => decide
      | some l =>
        cases hl : l.isEmpty
        · simp only [hl, Bool.false_eq_true, if_false]
          intro h
          subst h
          simp at hl
        · simp only [hl, if_true]
          decide
    · simp only [loadState, loadMetrics]
      match doc.metrics with
      | none => decide
      | some l =>
        cases hl : l.isEmpty
        · simp only [hl, Bool.false_eq_true, if_false]
          intro h
          subst h
          simp at hl
        · simp only [hl, if_true]
          decide

/-- C10 (witness): a concrete document with empty stored lists loads
the defaults. -/
theorem load_nonempty_defaults_witness :
    (loadState (ParsedDoc.mk none (some []) (some [])) 2026).announcements =
      DEFAULT_ANNOUNCEMENTS ∧
    (loadState (ParsedDoc.mk none (some []) (some [])) 2026).metrics =
      DEFAULT_METRICS :=
  ⟨load_nonempty_defaults.1 (ParsedDoc.mk none (some []) (some [])) 2026 rfl,
   load_nonempty_defaults.2.1 (ParsedDoc.mk none (some []) (some [])) 2026 rfl⟩

/-! ## Calendar creation and validation claims -/

theorem validMonths_iff (year : Int) :
    ∀ (l : List MonthlyData) (i : Nat),
      validMonths year i l = true ↔
        ∀ (n : Nat) (mo : MonthlyData), l.get? n = some mo →
          validMonthAt year (i + n) mo = true
  | [], i => by
    constructor
    · intro _ n mo hn
      simp at hn
    · intro _
      rfl
  | mo :: rest, i => by
    simp only [validMonths, Bool.and_eq_true]
    constructor
    · rintro ⟨h1, h2⟩ n mo' hn
      cases n with
      | zero =>
        simp only [List.get?_cons_zero, Option.some.injEq] at hn
        subst hn
        simpa using h1
      | succ n =>
        have h := (validMonths_iff year rest (i + 1)).mp h2 n mo' (by simpa using hn)
        have harith : i + 1 + n = i + (n + 1) := by omega
        rwa [harith] at h
    · intro h
      refine ⟨by simpa using h 0 mo rfl, (validMonths_iff year rest (i + 1)).mpr ?_⟩
      intro n mo' hn
      have := h (n + 1) mo' (by simpa using hn)
      have harith : i + 1 + n = i + (n + 1) := by omega
      rwa [harith]

theorem isValidMonthlyData_iff (data : List MonthlyData) (year : Int) :
    isValidMonthlyData data year = true ↔
      (data.length = 12 ∧
        ∀ (n : Nat) (mo : MonthlyData), data.get? n = some mo →
          mo.month = (n : Int) ∧ mo.year = year ∧
          (mo.days.length : Int) = daysInMonth year (n : Int)) := by
  unfold isValidMonthlyData
  rw [Bool.and_eq_true, decide_eq_true_eq, validMonths_iff year data 0]
  constructor
  · rintro ⟨h1, h2⟩
    refine ⟨h1, fun n mo hn => ?_⟩
    have h := h2 n mo hn
    simp only [Nat.zero_add] at h
    unfold validMonthAt at h
    simp only [Bool.and_eq_true, decide_eq_true_eq] at h
    exact ⟨h.1.1, h.1.2, h.2⟩
  · rintro ⟨h1, h2⟩
    refine ⟨h1, fun n mo hn => ?_⟩
    have h := h2 n mo hn
    unfold validMonthAt
    simp only [Nat.zero_add, Bool.and_eq_true, decide_eq_true_eq]
    exact ⟨⟨h.1, h.2.1⟩, h.2.2⟩

theorem createYearData_get? (year : Int) (m : Nat) (mo : MonthlyData)
    (h : (createYearData year).get? m = some mo) :
    m < 12 ∧
      mo = MonthlyData.mk (m : Int) year
        ((List.range (daysInMonth year (m : Int)).toNat).map fun (i : Nat) =>
          DailyStatistic.mk ((i : Int) + 1) DayStatus.unset) := by
  have hm12 : m < 12 := by
    by_contra hge
    have hlen : (createYearData year).length = 12 := by
      simp [createYearData]
    rw [List.get?_eq_none.mpr (by omega)] at h
    cases h
  refine ⟨hm12, ?_⟩
  unfold createYearData at h
  rw [List.get?_map, List.get?_range hm12] at h
  simp only [Option.map_some', Option.some.injEq] at h
  exact h.symm

/-- C7: `createYearData year` yields exactly 12 months with the
leap-year-aware day count of each month of `year` and every status
`unset` (concretely: 29 February days in 2028 and 28 in 2026);
`isValidMonthlyData` accepts it, and accepts an arbitrary candidate
exactly when it has 12 months whose `month` fields match their
indices, whose `year` fields equal the requested year and whose day
counts match the month lengths. -/
theorem createYearData_spec (year : Int) :
    (createYearData year).length = 12 ∧
    (∀ (m : Nat) (mo : MonthlyData), (createYearData year).get? m = some mo →
      mo.month = (m : Int) ∧ mo.year = year ∧
      (mo.days.length : Int) = daysInMonth year (m : Int) ∧
      ∀ dd ∈ mo.days, dd.status = DayStatus.unset) ∧
    ((createYearData 2028).get? 1).map (fun mo => mo.days.length) = some 29 ∧
    ((createYearData 2026).get? 1).map (fun mo => mo.days.length) = some 28 ∧
    isValidMonthlyData (createYearData year) year = true ∧
    (∀ cand : List MonthlyData,
      isValidMonthlyData cand year = true ↔
        (cand.length = 12 ∧
          ∀ (n : Nat) (mo : MonthlyData), cand.get? n = some mo →
            mo.month = (n : Int) ∧ mo.year = year ∧
            (mo.days.length : Int) = daysInMonth year (n : Int))) := by
  have hprops : ∀ (m : Nat) (mo : MonthlyData), (createYearData year).get? m = some mo →
      mo.month = (m : Int) ∧ mo.year = year ∧
      (mo.days.length : Int) = daysInMonth year (m : Int) ∧
      ∀ dd ∈ mo.days, dd.status = DayStatus.unset := by
    intro m mo h
    obtain ⟨hm12, rfl⟩ := createYearData_get? year m mo h
    refine ⟨rfl, rfl, ?_, ?_⟩
    · simp only [List.length_map, List.length_range]
      exact Int.toNat_of_nonneg (le_of_lt (daysInMonth_pos year (m : Int)))
    · intro dd hdd
      simp only [List.mem_map, List.mem_range] at hdd
      obtain ⟨i, -, rfl⟩ := hdd
      rfl
  have hlen : (createYearData year).length = 12 := by simp [createYearData]
  refine ⟨hlen, hprops, by decide, by decide, ?_, fun cand => isValidMonthlyData_iff cand year⟩
  rw [isValidMonthlyData_iff]
  exact ⟨hlen, fun n mo hn => ⟨(hprops n mo hn).1, (hprops n mo hn).2.1, (hprops n mo hn).2.2.1⟩⟩

/-- C7 (witness): the leap year 2028 at a concrete instance — the
structural facts and acceptance by the validator. -/
theorem createYearData_spec_witness :
    isValidMonthlyData (createYearData 2028) 2028 = true ∧
    ((createYearData 2028).get? 1).map (fun mo => mo.days.length) = some 29 :=
  ⟨(createYearData_spec 2028).2.2.2.2.1, (createYearData_spec 2028).2.2.1⟩

/-! ## Day mutation lemmas -/

theorem getIdx_mapIdx {α : Type} (f : Nat → α → α) (l : List α) (i : Int) :
    getIdx (mapIdx f l) i = (getIdx l i).map (fun a => f i.toNat a) := by
  unfold getIdx
  split
  · rfl
  · rw [mapIdx_get?]

theorem getIdx_updateCal (prev : List MonthlyData) (mi day : Int) (st : DayStatus)
    (i : Int) :
    getIdx (updateCal prev mi day st) i =
      (getIdx prev i).map (fun mo => if i = mi then updMonth day st mo else mo) := by
  unfold updateCal
  rw [getIdx_mapIdx]
  by_cases hneg : i < 0
  · simp [getIdx, hneg]
  · have hcast : ((i.toNat : Nat) : Int) = i := Int.toNat_of_nonneg (by omega)
    rw [hcast]

theorem getIdx_updMonth_days (day : Int) (st : DayStatus) (mo : MonthlyData)
    (j : Int) :
    getIdx (updMonth day st mo).days j =
      (getIdx mo.days j).map
        (fun dd => if j = day - 1 then DailyStatistic.mk dd.day st else dd) := by
  unfold updMonth
  rw [getIdx_mapIdx]
  by_cases hneg : j < 0
  · simp [getIdx, hneg]
  · have hcast : ((j.toNat : Nat) : Int) = j := Int.toNat_of_nonneg (by omega)
    rw [hcast]

theorem entryAt_updateCal_self (prev : List MonthlyData) (mi day : Int)
    (st : DayStatus) :
    entryAt (updateCal prev mi day st) mi day =
      (entryAt prev mi day).map (fun dd => DailyStatistic.mk dd.day st) := by
  unfold entryAt
  rw [getIdx_updateCal]
  cases getIdx prev mi with
  | none => rfl
  | some mo =>
    simp only [Option.map_some', eq_self_iff_true, if_true]
    rw [getIdx_updMonth_days]
    cases getIdx mo.days (day - 1) with
    | none => rfl
    | some dd => simp

theorem entryAt_updateCal_other (prev : List MonthlyData) (mi day : Int)
    (st : DayStatus) (i j : Int) (h : i ≠ mi ∨ j ≠ day) :
    entryAt (updateCal prev mi day st) i j = entryAt prev i j := by
  unfold entryAt
  rw [getIdx_updateCal]
  cases getIdx prev i with
  | none => rfl
  | some mo =>
    simp only [Option.map_some']
    by_cases hi : i = mi
    · rw [if_pos hi, getIdx_updMonth_days]
      have hj : j ≠ day := h.resolve_left (by simp [hi])
      cases getIdx mo.days (j - 1) with
      | none => rfl
      | some dd =>
        simp only [Option.map_some', Option.some.injEq]
        rw [if_neg (by omega)]
    · rw [if_neg hi]

theorem updateCal_length (prev : List MonthlyData) (mi day : Int) (st : DayStatus) :
    (updateCal prev mi day st).length = prev.length :=
  mapIdx_length _ _

theorem monthShape_updMonth (day : Int) (st : DayStatus) (mo : MonthlyData) :
    monthShape (updMonth day st mo) = monthShape mo := by
  unfold monthShape updMonth
  simp [mapIdx_length]

theorem getIdx_updateCal_shape (prev : List MonthlyData) (mi day : Int)
    (st : DayStatus) (i : Int) :
    (getIdx (updateCal prev mi day st) i).map monthShape =
      (getIdx prev i).map monthShape := by
  rw [getIdx_updateCal]
  cases getIdx prev i with
  | none => rfl
  | some mo =>
    simp only [Option.map_some', Option.some.injEq]
    split
    · exact monthShape_updMonth day st mo
    · rfl

theorem setDayStatus_of_none (prev : List MonthlyData) (mi day : Int)
    (st : DayStatus) (h : entryAt prev mi day = none) :
    setDayStatus prev mi day st = prev := by
  unfold setDayStatus
  split
  · rfl
  · rename_i mo hmo
    split
    · rfl
    · rename_i dd hdd
      unfold entryAt at h
      rw [hmo] at h
      have h' : getIdx mo.days (day - 1) = none := h
      rw [h'] at hdd
      cases hdd

theorem setDayStatus_of_some (prev : List MonthlyData) (mi day : Int)
    (st : DayStatus) (dd₀ : DailyStatistic) (h : entryAt prev mi day = some dd₀) :
    setDayStatus prev mi day st = updateCal prev mi day st := by
  unfold setDayStatus
  split
  · rename_i hmo
    unfold entryAt at h
    rw [hmo] at h
    exact Option.noConfusion h
  · rename_i mo hmo
    split
    · rename_i hdd
      unfold entryAt at h
      rw [hmo] at h
      have h' : getIdx mo.days (day - 1) = some dd₀ := h
      rw [h'] at hdd
      cases hdd
    · rfl

theorem statusAt_of_entry (cal : List MonthlyData) (m d : Int)
    (dd : DailyStatistic) (h : entryAt cal m d = some dd) :
    statusAt cal m d = dd.status := by
  unfold statusAt
  rw [h]

/-- C6: with an in-range month index and day, `setDayStatus` changes
exactly that one day's status to the given status — the calendar keeps
its length, every month keeps its `month`/`year` fields and day count,
every other day of every month is unchanged, and the target day keeps
its `day` number; with an out-of-range month index or day it throws
nothing (it is a total function) and returns the input calendar
unchanged. -/
theorem setDayStatus_spec (prev : List MonthlyData) (mi day : Int)
    (st : DayStatus) :
    ((entryAt prev mi day).isSome = true →
      ((setDayStatus prev mi day st).length = prev.length ∧
       (∀ i : Int, (getIdx (setDayStatus prev mi day st) i).map monthShape =
          (getIdx prev i).map monthShape) ∧
       (∀ i j : Int, ¬(i = mi ∧ j = day) →
          entryAt (setDayStatus prev mi day st) i j = entryAt prev i j) ∧
       entryAt (setDayStatus prev mi day st) mi day =
         (entryAt prev mi day).map (fun dd => DailyStatistic.mk dd.day st))) ∧
    ((entryAt prev mi day).isSome = false → setDayStatus prev mi day st = prev) := by
  constructor
  · intro hsome
    obtain ⟨dd₀, hdd₀⟩ := Option.isSome_iff_exists.mp hsome
    rw [setDayStatus_of_some prev mi day st dd₀ hdd₀]
    refine ⟨updateCal_length prev mi day st, ?_, ?_, entryAt_updateCal_self prev mi day st⟩
    · intro i
      exact getIdx_updateCal_shape prev mi day st i
    · intro i j hne
      refine entryAt_updateCal_other prev mi day st i j ?_
      by_cases hi : i = mi
      · exact Or.inr fun hj => hne ⟨hi, hj⟩
      · exact Or.inl hi
  · intro hnone
    exact setDayStatus_of_none prev mi day st (Option.not_isSome_iff_eq_none.mp
      (by rw [hnone]; exact Bool.false_ne_true))

/-- C6 (witness): a concrete two-month calendar — the in-range update
rewrites exactly the addressed day, and an out-of-range day index is a
no-op. -/
theorem setDayStatus_spec_witness :
    (entryAt [MonthlyData.mk 0 2026
        [DailyStatistic.mk 1 DayStatus.unset, DailyStatistic.mk 2 DayStatus.safe],
      MonthlyData.mk 1 2026 [DailyStatistic.mk 1 DayStatus.accident]] 0 2).isSome = true ∧
    entryAt
      (setDayStatus [MonthlyData.mk 0 2026
          [DailyStatistic.mk 1 DayStatus.unset, DailyStatistic.mk 2 DayStatus.safe],
        MonthlyData.mk 1 2026 [DailyStatistic.mk 1 DayStatus.accident]] 0 2
        DayStatus.accident) 0 2 =
      (entryAt [MonthlyData.mk 0 2026
          [DailyStatistic.mk 1 DayStatus.unset, DailyStatistic.mk 2 DayStatus.safe],
        MonthlyData.mk 1 2026 [DailyStatistic.mk 1 DayStatus.accident]] 0 2).map
        (fun dd => DailyStatistic.mk dd.day DayStatus.accident) ∧
    setDayStatus [MonthlyData.mk 0 2026
        [DailyStatistic.mk 1 DayStatus.unset, DailyStatistic.mk 2 DayStatus.safe],
      MonthlyData.mk 1 2026 [DailyStatistic.mk 1 DayStatus.accident]] 0 9
      DayStatus.accident =
      [MonthlyData.mk 0 2026
        [DailyStatistic.mk 1 DayStatus.unset, DailyStatistic.mk 2 DayStatus.safe],
       MonthlyData.mk 1 2026 [DailyStatistic.mk 1 DayStatus.accident]] :=
  ⟨by decide,
   ((setDayStatus_spec _ 0 2 DayStatus.accident).1 (by decide)).2.2.2,
   (setDayStatus_spec _ 0 9 DayStatus.accident).2 (by decide)⟩

/-! ## Cycle closure -/

theorem nextDayStatus_four (s : DayStatus) :
    nextDayStatus (nextDayStatus (nextDayStatus (nextDayStatus s))) = s := by
  cases s <;> rfl

theorem updMonth_updMonth (day : Int) (a b : DayStatus) (mo : MonthlyData) :
    updMonth day b (updMonth day a mo) = updMonth day b mo := by
  unfold updMonth
  simp only [MonthlyData.mk.injEq, true_and]
  apply list_eq_of_get?_eq
  intro n
  rw [mapIdx_get?, mapIdx_get?, mapIdx_get?]
  cases mo.days.get? n with
  | none => rfl
  | some dd =>
    simp only [Option.map_some', Option.some.injEq]
    by_cases hn : (n : Int) = day - 1
    · simp [hn]
    · simp [hn]

theorem updateCal_updateCal (prev : List MonthlyData) (mi day : Int)
    (a b : DayStatus) :
    updateCal (updateCal prev mi day a) mi day b = updateCal prev mi day b := by
  unfold updateCal
  apply list_eq_of_get?_eq
  intro n
  rw [mapIdx_get?, mapIdx_get?, mapIdx_get?]
  cases prev.get? n with
  | none => rfl
  | some mo =>
    simp only [Option.map_some', Option.some.injEq]
    by_cases hn : (n : Int) = mi
    · simp [hn, updMonth_updMonth]
    · simp [hn]

theorem updateCal_self (prev : List MonthlyData) (mi day : Int)
    (dd₀ : DailyStatistic) (h : entryAt prev mi day = some dd₀) :
    updateCal prev mi day dd₀.status = prev := by
  have hmi : ¬mi < 0 := by
    intro hneg
    unfold entryAt getIdx at h
    rw [if_pos hneg] at h
    exact Option.noConfusion h
  obtain ⟨mo₀, hmo₀, hdd⟩ : ∃ mo₀, getIdx prev mi = some mo₀ ∧
      getIdx mo₀.days (day - 1) = some dd₀ := by
    unfold entryAt at h
    cases hmo : getIdx prev mi with
    | none => rw [hmo] at h; exact Option.noConfusion h
    | some mo =>
      rw [hmo] at h
      exact ⟨mo, rfl, h⟩
  have hday : ¬day - 1 < 0 := by
    intro hneg
    unfold getIdx at hdd
    rw [if_pos hneg] at hdd
    exact Option.noConfusion hdd
  unfold updateCal
  apply list_eq_of_get?_eq
  intro n
  rw [mapIdx_get?]
  cases hn : prev.get? n with
  | none => rfl
  | some mo =>
    simp only [Option.map_some', Option.some.injEq]
    by_cases hnmi : (n : Int) = mi
    · rw [if_pos hnmi]
      have hmo : mo = mo₀ := by
        unfold getIdx at hmo₀
        rw [if_neg hmi] at hmo₀
        have hnat : mi.toNat = n := by omega
        rw [hnat, hn] at hmo₀
        exact (Option.some.injEq _ _).mp hmo₀
      subst hmo
      unfold updMonth
      have hdays : mapIdx
          (fun j dd => if (j : Int) = day - 1 then DailyStatistic.mk dd.day dd₀.status else dd)
          mo.days = mo.days := by
        apply list_eq_of_get?_eq
        intro k
        rw [mapIdx_get?]
        cases hk : mo.days.get? k with
        | none => rfl
        | some dd =>
          simp only [Option.map_some', Option.some.injEq]
          by_cases hkday : (k : Int) = day - 1
          · rw [if_pos hkday]
            have hddeq : dd = dd₀ := by
              unfold getIdx at hdd
              rw [if_neg hday] at hdd
              have hnat : (day - 1).toNat = k := by omega
              rw [hnat, hk] at hdd
              exact (Option.some.injEq _ _).mp hdd
            subst hddeq
            rfl
          · rw [if_neg hkday]
      rw [hdays]
    · rw [if_neg hnmi]

theorem statusAt_updateCal_self (prev : List MonthlyData) (mi day : Int)
    (st : DayStatus) (dd₀ : DailyStatistic) (h : entryAt prev mi day = some dd₀) :
    statusAt (updateCal prev mi day st) mi day = st := by
  unfold statusAt
  rw [entryAt_updateCal_self, h]
  rfl

theorem mk_status (d : Int) (s : DayStatus) : (DailyStatistic.mk d s).status = s :=
  rfl

/-- C8: cycling follows the fixed wrapping order
`unset → safe → near_miss → accident → unset`, so applying
`cycleDayStatus` four times to the same in-range day returns the
entire calendar to its starting value. -/
theorem cycleDayStatus_spec (prev : List MonthlyData) (mi day : Int)
    (dd₀ : DailyStatistic) (h : entryAt prev mi day = some dd₀) :
    cycleDayStatus (cycleDayStatus (cycleDayStatus
      (cycleDayStatus prev mi day) mi day) mi day) mi day = prev := by
  have key : ∀ (c : List MonthlyData) (dd : DailyStatistic),
      entryAt c mi day = some dd →
      cycleDayStatus c mi day = updateCal c mi day (nextDayStatus dd.status) := by
    intro c dd hdd
    unfold cycleDayStatus
    rw [statusAt_of_entry c mi day dd hdd, setDayStatus_of_some c mi day _ dd hdd]
  have he1 : entryAt (updateCal prev mi day (nextDayStatus dd₀.status)) mi day =
      some (DailyStatistic.mk dd₀.day (nextDayStatus dd₀.status)) := by
    rw [entryAt_updateCal_self, h]
    rfl
  have he2 : entryAt (updateCal prev mi day
      (nextDayStatus (nextDayStatus dd₀.status))) mi day =
      some (DailyStatistic.mk dd₀.day (nextDayStatus (nextDayStatus dd₀.status))) := by
    rw [entryAt_updateCal_self, h]
    rfl
  have he3 : entryAt (updateCal prev mi day
      (nextDayStatus (nextDayStatus (nextDayStatus dd₀.status)))) mi day =
      some (DailyStatistic.mk dd₀.day
        (nextDayStatus (nextDayStatus (nextDayStatus dd₀.status)))) := by
    rw [entryAt_updateCal_self, h]
    rfl
  rw [key prev dd₀ h,
    key _ _ he1, updateCal_updateCal, mk_status,
    key _ _ he2, updateCal_updateCal, mk_status,
    key _ _ he3, updateCal_updateCal, mk_status,
    nextDayStatus_four]
  exact updateCal_self prev mi day dd₀ h

/-- C8 (witness): four cycles on a concrete in-range day restore the
calendar. -/
theorem cycleDayStatus_spec_witness :
    cycleDayStatus (cycleDayStatus (cycleDayStatus
      (cycleDayStatus [MonthlyData.mk 0 2026
        [DailyStatistic.mk 1 DayStatus.near_miss]] 0 1) 0 1) 0 1) 0 1 =
      [MonthlyData.mk 0 2026 [DailyStatistic.mk 1 DayStatus.near_miss]] :=
  cycleDayStatus_spec _ 0 1 (DailyStatistic.mk 1 DayStatus.near_miss) (by decide)

/-! ## Auto-safe promotion lemmas -/

theorem afterCutoff_iff (now : Instant) (hmin : 0 ≤ now.minute) :
    afterCutoff now ↔ AUTO_SAFE_HOUR ≤ now.hour := by
  unfold afterCutoff AUTO_SAFE_HOUR at *
  constructor
  · intro h
    omega
  · intro h
    omega

theorem promotes_iff (year : Int) (now : Instant) (m : Nat) (dd : DailyStatistic)
    (hmin : 0 ≤ now.minute) :
    promotes year now m dd ↔
      (dd.status = DayStatus.unset ∧
        (dayOrd year (m : Int) dd.day < dayOrd year now.month now.day ∨
          (AUTO_SAFE_HOUR ≤ now.hour ∧ (m : Int) = now.month ∧ dd.day = now.day))) := by
  unfold promotes
  rw [afterCutoff_iff now hmin]

theorem promoteDay_of_promotes (year : Int) (now : Instant) (m : Nat)
    (dd : DailyStatistic) (h : promotes year now m dd) :
    promoteDay year now m dd = DailyStatistic.mk dd.day DayStatus.safe := by
  obtain ⟨hstat, hcond⟩ := h
  unfold promoteDay
  rw [if_neg (by simp [hstat])]
  rcases hcond with hord | htoday
  · rw [if_pos hord]
  · by_cases hord : dayOrd year (m : Int) dd.day < dayOrd year now.month now.day
    · rw [if_pos hord]
    · rw [if_neg hord, if_pos htoday]

theorem promoteDay_of_not_promotes (year : Int) (now : Instant) (m : Nat)
    (dd : DailyStatistic) (h : ¬promotes year now m dd) :
    promoteDay year now m dd = dd := by
  unfold promoteDay
  by_cases hstat : dd.status = DayStatus.unset
  · rw [if_neg (by simp [hstat])]
    have hcond : ¬(dayOrd year (m : Int) dd.day < dayOrd year now.month now.day ∨
        (afterCutoff now ∧ (m : Int) = now.month ∧ dd.day = now.day)) :=
      fun hc => h ⟨hstat, hc⟩
    rw [if_neg (fun hc => hcond (Or.inl hc)), if_neg (fun hc => hcond (Or.inr hc))]
  · rw [if_pos hstat]

theorem promoteDay_eq (year : Int) (now : Instant) (m : Nat) (dd : DailyStatistic)
    (hmin : 0 ≤ now.minute) :
    promoteDay year now m dd =
      DailyStatistic.mk dd.day
        (if dd.status = DayStatus.unset ∧
            (dayOrd year (m : Int) dd.day < dayOrd year now.month now.day ∨
              (AUTO_SAFE_HOUR ≤ now.hour ∧ (m : Int) = now.month ∧ dd.day = now.day))
          then DayStatus.safe else dd.status) := by
  by_cases hp : promotes year now m dd
  · rw [promoteDay_of_promotes year now m dd hp,
      if_pos ((promotes_iff year now m dd hmin).mp hp)]
  · rw [promoteDay_of_not_promotes year now m dd hp,
      if_neg (fun hc => hp ((promotes_iff year now m dd hmin).mpr hc))]

theorem autoSafeChanged_true_iff (prev : List MonthlyData) (now : Instant)
    (year : Int) :
    autoSafeChanged prev now year = true ↔
      (now.year = year ∧ ∃ (m : Nat) (mo : MonthlyData) (dd : DailyStatistic),
        m < 12 ∧ prev.get? m = some mo ∧ dd ∈ mo.days ∧ promotes year now m dd) := by
  unfold autoSafeChanged
  rw [Bool.and_eq_true, decide_eq_true_eq, List.any_eq_true]
  constructor
  · rintro ⟨hy, m, hm, hbody⟩
    refine ⟨hy, m, ?_⟩
    rw [List.mem_range] at hm
    unfold monthHasPromotable at hbody
    cases hmo : prev.get? m with
    | none => rw [hmo] at hbody; cases hbody
    | some mo =>
      rw [hmo] at hbody
      obtain ⟨dd, hdd, hp⟩ := List.any_eq_true.mp hbody
      exact ⟨mo, dd, hm, rfl, hdd, of_decide_eq_true hp⟩
  · rintro ⟨hy, m, mo, dd, hm12, hmo, hdd, hp⟩
    refine ⟨hy, m, List.mem_range.mpr hm12, ?_⟩
    unfold monthHasPromotable
    rw [hmo]
    exact List.any_eq_true.mpr ⟨dd, hdd, decide_eq_true hp⟩

theorem applyAutoSafe_of_not_changed (prev : List MonthlyData) (now : Instant)
    (year : Int) (h : autoSafeChanged prev now year = false) :
    applyAutoSafe prev now year = prev := by
  unfold applyAutoSafe
  split
  · rfl
  · rw [h]
    rfl

theorem applyAutoSafe_of_changed (prev : List MonthlyData) (now : Instant)
    (year : Int) (heq : now.year = year) (h : autoSafeChanged prev now year = true) :
    applyAutoSafe prev now year =
      mapIdx
        (fun m mo =>
          if m < 12 then
            MonthlyData.mk mo.month mo.year (mo.days.map (promoteDay year now m))
          else mo)
        prev := by
  unfold applyAutoSafe
  rw [if_neg (by simp [heq]), h]
  rfl

theorem mk_days (a b : Int) (l : List DailyStatistic) :
    (MonthlyData.mk a b l).days = l :=
  rfl

/-- C3: with `now`'s year equal to `year`, `applyAutoSafe` sets to
`safe` exactly the days that were `unset` and lie strictly before
today's date in the ordinal model — plus today's own slot when the
time-of-day is at or after the 16:00 cutoff — while preserving the
calendar's length, every month's `month`/`year` fields and day count,
every day's `day` number, and every other day's status (decided days
are never touched and other unset days stay unset); with a differing
year the calendar is returned unchanged.  The calendar is quantified
over the data model's shape of at most 12 months. -/
theorem applyAutoSafe_spec (prev : List MonthlyData) (now : Instant) (year : Int)
    (hlen : prev.length ≤ 12) (hmin : 0 ≤ now.minute) :
    (now.year ≠ year → applyAutoSafe prev now year = prev) ∧
    (now.year = year →
      ((applyAutoSafe prev now year).length = prev.length ∧
       (∀ i : Int, (getIdx (applyAutoSafe prev now year) i).map monthShape =
          (getIdx prev i).map monthShape) ∧
       (∀ (m i : Nat) (mo : MonthlyData) (dd : DailyStatistic),
         prev.get? m = some mo → mo.days.get? i = some dd →
         ((applyAutoSafe prev now year).get? m).bind (fun mo' => mo'.days.get? i) =
           some (DailyStatistic.mk dd.day
             (if dd.status = DayStatus.unset ∧
                 (dayOrd year (m : Int) dd.day < dayOrd year now.month now.day ∨
                   (AUTO_SAFE_HOUR ≤ now.hour ∧ (m : Int) = now.month ∧
                     dd.day = now.day))
               then DayStatus.safe else dd.status))))) := by
  constructor
  · intro hne
    unfold applyAutoSafe
    rw [if_pos hne]
  · intro heq
    cases hb : autoSafeChanged prev now year with
    | false =>
      have hr := applyAutoSafe_of_not_changed prev now year hb
      rw [hr]
      refine ⟨rfl, fun i => rfl, ?_⟩
      intro m i mo dd hm hd
      have hm12 : m < 12 := by
        have hlt : m < prev.length := by
          by_contra hge
          rw [List.get?_eq_none.mpr (by omega)] at hm
          cases hm
        omega
      have hnp : ¬promotes year now m dd := by
        intro hp
        have hcontra : autoSafeChanged prev now year = true :=
          (autoSafeChanged_true_iff prev now year).mpr
            ⟨heq, m, mo, dd, hm12, hm, List.get?_mem hd, hp⟩
        rw [hb] at hcontra
        cases hcontra
      have hcond : ¬(dd.status = DayStatus.unset ∧
          (dayOrd year (m : Int) dd.day < dayOrd year now.month now.day ∨
            (AUTO_SAFE_HOUR ≤ now.hour ∧ (m : Int) = now.month ∧
              dd.day = now.day))) :=
        fun hc => hnp ((promotes_iff year now m dd hmin).mpr hc)
      rw [hm, Option.some_bind, hd, if_neg hcond]
    | true =>
      have hr := applyAutoSafe_of_changed prev now year heq hb
      rw [hr]
      refine ⟨mapIdx_length _ _, ?_, ?_⟩
      · intro i
        unfold getIdx
        by_cases hneg : i < 0
        · simp [hneg]
        · simp only [hneg, if_false]
          rw [mapIdx_get?]
          cases prev.get? i.toNat with
          | none => rfl
          | some mo =>
            simp only [Option.map_some', Option.some.injEq]
            split
            · unfold monthShape
              simp [List.length_map]
            · rfl
      · intro m i mo dd hm hd
        have hm12 : m < 12 := by
          have hlt : m < prev.length := by
            by_contra hge
            rw [List.get?_eq_none.mpr (by omega)] at hm
            cases hm
          omega
        rw [mapIdx_get?, hm]
        simp only [Option.map_some', if_pos hm12, Option.some_bind, mk_days]
        rw [List.get?_map, hd]
        simp only [Option.map_some', Option.some.injEq]
        exact promoteDay_eq year now m dd hmin

/-- C3 (witness): a concrete one-month calendar, noon of 2026-03-15 —
the hypotheses hold and the promotion characterization applies. -/
theorem applyAutoSafe_spec_witness :
    ([MonthlyData.mk 0 2026 [DailyStatistic.mk 1 DayStatus.unset]] :
        List MonthlyData).length ≤ 12 ∧
    (0 : Int) ≤ (Instant.mk 2026 2 15 10 0).minute ∧
    (applyAutoSafe [MonthlyData.mk 0 2026 [DailyStatistic.mk 1 DayStatus.unset]]
        (Instant.mk 2026 2 15 10 0) 2026).length =
      ([MonthlyData.mk 0 2026 [DailyStatistic.mk 1 DayStatus.unset]] :
        List MonthlyData).length :=
  ⟨by decide, by decide,
   ((applyAutoSafe_spec [MonthlyData.mk 0 2026 [DailyStatistic.mk 1 DayStatus.unset]]
      (Instant.mk 2026 2 15 10 0) 2026 (by decide) (by decide)).2 rfl).1⟩

/-- C4: `applyAutoSafe` is idempotent and change-detecting: a second
application with the same `now` changes nothing, its `changed` flag is
false — so the code's `changed && next ? next : prev` returns the very
same reference — and whenever the first application already returned a
value equal to its input, its own `changed` flag was false, i.e. the
input reference was returned. -/
theorem applyAutoSafe_idem (prev : List MonthlyData) (now : Instant) (year : Int) :
    applyAutoSafe (applyAutoSafe prev now year) now year =
      applyAutoSafe prev now year ∧
    autoSafeChanged (applyAutoSafe prev now year) now year = false ∧
    (applyAutoSafe prev now year = prev →
      autoSafeChanged prev now year = false) := by
  by_cases heq : now.year = year
  · cases hb : autoSafeChanged prev now year with
    | false =>
      have hr := applyAutoSafe_of_not_changed prev now year hb
      refine ⟨?_, ?_, fun _ => rfl⟩
      · rw [hr, hr]
      · rw [hr]
        exact hb
    | true =>
      have hr := applyAutoSafe_of_changed prev now year heq hb
      have hch2 : autoSafeChanged (applyAutoSafe prev now year) now year = false := by
        cases hb2 : autoSafeChanged (applyAutoSafe prev now year) now year with
        | false => rfl
        | true =>
          exfalso
          obtain ⟨-, m, mo', dd', hm12, hmo', hdd', hp'⟩ :=
            (autoSafeChanged_true_iff _ now year).mp hb2
          rw [hr, mapIdx_get?] at hmo'
          cases hmo0 : prev.get? m with
          | none =>
            rw [hmo0] at hmo'
            cases hmo'
          | some mo =>
            rw [hmo0] at hmo'
            simp only [Option.map_some', if_pos hm12, Option.some.injEq] at hmo'
            subst hmo'
            rw [mk_days] at hdd'
            obtain ⟨dd, hdd, rfl⟩ := List.mem_map.mp hdd'
            by_cases hp : promotes year now m dd
            · rw [promoteDay_of_promotes year now m dd hp] at hp'
              have hcontra := hp'.1
              rw [mk_status] at hcontra
              exact DayStatus.noConfusion hcontra
            · rw [promoteDay_of_not_promotes year now m dd hp] at hp'
              exact hp hp'
      refine ⟨applyAutoSafe_of_not_changed _ now year hch2, hch2, ?_⟩
      intro hpe
      exfalso
      obtain ⟨-, m, mo, dd, hm12, hmo, hdd, hp⟩ :=
        (autoSafeChanged_true_iff prev now year).mp hb
      obtain ⟨i, hi⟩ := List.get?_of_mem hdd
      have hres : (applyAutoSafe prev now year).get? m =
          some (MonthlyData.mk mo.month mo.year
            (mo.days.map (promoteDay year now m))) := by
        rw [hr, mapIdx_get?, hmo]
        simp only [Option.map_some', if_pos hm12]
      rw [hpe, hmo] at hres
      have hmoeq : mo = MonthlyData.mk mo.month mo.year
          (mo.days.map (promoteDay year now m)) :=
        (Option.some.injEq _ _).mp hres
      have hdays : mo.days = mo.days.map (promoteDay year now m) :=
        congrArg MonthlyData.days hmoeq
      have h2 : (some dd : Option DailyStatistic) =
          some (promoteDay year now m dd) := by
        rw [← hi]
        rw [hdays, List.get?_map, hi]
        rfl
      have h3 : dd = promoteDay year now m dd := (Option.some.injEq _ _).mp h2
      rw [promoteDay_of_promotes year now m dd hp] at h3
      have h4 : dd.status = DayStatus.safe := by
        rw [congrArg DailyStatistic.status h3, mk_status]
      rw [hp.1] at h4
      exact DayStatus.noConfusion h4
  · have hch : ∀ c : List MonthlyData, autoSafeChanged c now year = false := by
      intro c
      unfold autoSafeChanged
      simp [heq]
    have hr : ∀ c : List MonthlyData, applyAutoSafe c now year = c := fun c =>
      applyAutoSafe_of_not_changed c now year (hch c)
    exact ⟨by rw [hr, hr], by rw [hr]; exact hch prev, fun _ => hch prev⟩

/-- C4 (witness): concrete instance of the idempotence equation. -/
theorem applyAutoSafe_idem_witness :
    applyAutoSafe (applyAutoSafe
      [MonthlyData.mk 0 2026 [DailyStatistic.mk 1 DayStatus.unset]]
      (Instant.mk 2026 2 15 10 0) 2026) (Instant.mk 2026 2 15 10 0) 2026 =
    applyAutoSafe [MonthlyData.mk 0 2026 [DailyStatistic.mk 1 DayStatus.unset]]
      (Instant.mk 2026 2 15 10 0) 2026 :=
  (applyAutoSafe_idem [MonthlyData.mk 0 2026 [DailyStatistic.mk 1 DayStatus.unset]]
    (Instant.mk 2026 2 15 10 0) 2026).1

/-! ## Streak lemmas -/

theorem streakFrom_le (cal : List MonthlyData) (y : Int) :
    ∀ n : Nat, streakFrom cal y n ≤ n
  | 0 => Nat.le_refl 0
  | n + 1 => by
    simp only [streakFrom]
    split
    · exact Nat.succ_le_succ (streakFrom_le cal y n)
    · exact Nat.zero_le _

theorem streakFrom_window (cal : List MonthlyData) (y : Int) :
    ∀ (n k : Nat), n - streakFrom cal y n < k → k ≤ n →
      isStreakStatus (statusAtOrd cal y (k : Int)) = true
  | 0, k => by
    intro h1 h2
    simp only [streakFrom] at h1
    omega
  | n + 1, k => by
    intro h1 h2
    by_cases hq : isStreakStatus (statusAtOrd cal y ((n : Int) + 1)) = true
    · have hle := streakFrom_le cal y n
      simp only [streakFrom, hq, if_true] at h1
      rcases Nat.lt_or_ge k (n + 1) with hk | hk
      · exact streakFrom_window cal y n k (by omega) (by omega)
      · have hkeq : k = n + 1 := by omega
        subst hkeq
        have hcast : ((n : Int) + 1) = ((n + 1 : Nat) : Int) := by push_cast; ring
        rwa [hcast] at hq
    · simp [streakFrom, hq] at h1
      omega

theorem streakFrom_stop (cal : List MonthlyData) (y : Int) :
    ∀ n : Nat, streakFrom cal y n = n ∨
      isStreakStatus (statusAtOrd cal y ((n - streakFrom cal y n : Nat) : Int)) = false
  | 0 => Or.inl rfl
  | n + 1 => by
    by_cases hq : isStreakStatus (statusAtOrd cal y ((n : Int) + 1)) = true
    · have hle := streakFrom_le cal y n
      rcases streakFrom_stop cal y n with h | h
      · left
        simp only [streakFrom, hq, if_true, h]
      · right
        simp only [streakFrom, hq, if_true]
        have harith : n + 1 - (streakFrom cal y n + 1) = n - streakFrom cal y n := by
          omega
        rw [harith]
        exact h
    · right
      have hs0 : streakFrom cal y (n + 1) = 0 := by
        simp [streakFrom, hq]
      rw [hs0]
      have harith : n + 1 - 0 = n + 1 := by omega
      rw [harith]
      have hcast : (((n + 1 : Nat)) : Int) = (n : Int) + 1 := by push_cast; ring
      rw [hcast]
      exact Bool.not_eq_true _ |>.mp hq

/-- C5: `safetyStreak` returns a count (a natural number, hence
non-negative) that is 0 when `now`'s year differs from `year`;
otherwise it anchors at today when today's status is `safe` or
`near_miss` and at yesterday otherwise, and equals the number of
consecutive days ending at the anchor whose status is `safe` or
`near_miss`: every day in the counted window qualifies, and the walk
stopped either by crossing into the previous year or at a first day
whose status does not qualify (is `accident` or `unset`). -/
theorem safetyStreak_spec (cal : List MonthlyData) (now : Instant) (year : Int)
    (hv : now.Valid) :
    (now.year ≠ year → safetyStreak cal now year = 0) ∧
    (now.year = year →
      ((safetyStreak cal now year : Int) ≤ streakAnchor cal now year ∧
       (∀ j : Int,
          streakAnchor cal now year - (safetyStreak cal now year : Int) < j →
          j ≤ streakAnchor cal now year →
          isStreakStatus (statusAtOrd cal year j) = true) ∧
       (streakAnchor cal now year - (safetyStreak cal now year : Int) = 0 ∨
        isStreakStatus (statusAtOrd cal year
          (streakAnchor cal now year - (safetyStreak cal now year : Int))) = false))) := by
  constructor
  · intro hne
    unfold safetyStreak
    rw [if_pos hne]
  · intro heq
    have hbounds := dayOrd_bounds now hv
    rw [heq] at hbounds
    have hanchor : streakAnchor cal now year =
        (if isStreakStatus (statusAt cal now.month now.day) then
          dayOrd year now.month now.day
        else dayOrd year now.month now.day - 1) := rfl
    have hstreak : safetyStreak cal now year =
        (if (if isStreakStatus (statusAt cal now.month now.day) then
              dayOrd year now.month now.day
            else dayOrd year now.month now.day - 1) < 1 ∨
            yearLen year <
              (if isStreakStatus (statusAt cal now.month now.day) then
                dayOrd year now.month now.day
              else dayOrd year now.month now.day - 1) then 0
        else streakFrom cal year
            (if isStreakStatus (statusAt cal now.month now.day) then
              dayOrd year now.month now.day
            else dayOrd year now.month now.day - 1).toNat) := by
      unfold safetyStreak
      rw [if_neg (by simp [heq])]
    have hanch_lb : 0 ≤ streakAnchor cal now year := by
      rw [hanchor]
      split <;> omega
    have hanch_ub : streakAnchor cal now year ≤ yearLen year := by
      rw [hanchor]
      split <;> omega
    by_cases hzero : streakAnchor cal now year < 1
    · have hs0 : safetyStreak cal now year = 0 := by
        rw [hstreak, if_pos]
        rw [hanchor] at hzero
        exact Or.inl hzero
      rw [hs0]
      refine ⟨by omega, fun j h1 h2 => by omega, Or.inl (by omega)⟩
    · have hs : safetyStreak cal now year =
          streakFrom cal year (streakAnchor cal now year).toNat := by
        rw [hstreak, if_neg]
        · rfl
        · rw [hanchor] at hzero hanch_ub
          omega
      have hcastn : (((streakAnchor cal now year).toNat : Nat) : Int) =
          streakAnchor cal now year := Int.toNat_of_nonneg hanch_lb
      have hle := streakFrom_le cal year (streakAnchor cal now year).toNat
      refine ⟨by omega, ?_, ?_⟩
      · intro j h1 h2
        have hj0 : 0 < j := by omega
        have hjcast : ((j.toNat : Nat) : Int) = j := Int.toNat_of_nonneg (by omega)
        have hwin := streakFrom_window cal year (streakAnchor cal now year).toNat
          j.toNat (by omega) (by omega)
        rwa [hjcast] at hwin
      · rcases streakFrom_stop cal year (streakAnchor cal now year).toNat with h | h
        · left
          omega
        · right
          have harith : (((streakAnchor cal now year).toNat -
              streakFrom cal year (streakAnchor cal now year).toNat : Nat) : Int) =
              streakAnchor cal now year - (safetyStreak cal now year : Int) := by
            rw [hs]
            omega
          rwa [harith] at h

/-- C5 (witness): a concrete calendar whose first month has days 8–10
`safe`, observed at 17:00 of day 10 — the hypotheses hold and the
anchor bound applies. -/
theorem safetyStreak_spec_witness :
    (Instant.mk 2026 0 10 17 0).Valid ∧
    ((safetyStreak [MonthlyData.mk 0 2026
        [DailyStatistic.mk 1 DayStatus.unset, DailyStatistic.mk 2 DayStatus.unset,
         DailyStatistic.mk 3 DayStatus.unset, DailyStatistic.mk 4 DayStatus.unset,
         DailyStatistic.mk 5 DayStatus.unset, DailyStatistic.mk 6 DayStatus.unset,
         DailyStatistic.mk 7 DayStatus.unset, DailyStatistic.mk 8 DayStatus.safe,
         DailyStatistic.mk 9 DayStatus.safe, DailyStatistic.mk 10 DayStatus.safe]]
        (Instant.mk 2026 0 10 17 0) 2026 : Int) ≤
      streakAnchor [MonthlyData.mk 0 2026
        [DailyStatistic.mk 1 DayStatus.unset, DailyStatistic.mk 2 DayStatus.unset,
         DailyStatistic.mk 3 DayStatus.unset, DailyStatistic.mk 4 DayStatus.unset,
         DailyStatistic.mk 5 DayStatus.unset, DailyStatistic.mk 6 DayStatus.unset,
         DailyStatistic.mk 7 DayStatus.unset, DailyStatistic.mk 8 DayStatus.safe,
         DailyStatistic.mk 9 DayStatus.safe, DailyStatistic.mk 10 DayStatus.safe]]
        (Instant.mk 2026 0 10 17 0) 2026) :=
  ⟨by decide,
   ((safetyStreak_spec _ (Instant.mk 2026 0 10 17 0) 2026 (by decide)).2 rfl).1⟩

end Dashboard
